import Mathlib

/-!
Verification of the profile engine in mosdef_slitpore/analysis.py.

The four analysis routines (compute_density, compute_s, compute_angle,
compute_mol_per_area) are shallowly embedded here.  Machine floating-point
numbers are modelled by exact elements of a linear ordered field (instantiated
at ℚ for the counting/binning claims and at ℝ where np.linalg.norm requires a
square root); the float values NaN and ±infinity that arise from division by
zero or from the mean of an empty selection are modelled by `Option` with
`none` for "non-finite", and NumPy/Python exceptions (ZeroDivisionError from
np.arange with step 0, ValueError from the hydrogen reshape of
compute_s/compute_angle on a size-0 array, IndexError from out-of-bounds
frame_range indexing, UnboundLocalError from the loop in compute_mol_per_area
never executing) are modelled by `Except.error`.
-/

namespace MosdefSlitpore

/-- A 3D coordinate (one row of traj.xyz[frame]). -/
structure Vec3 (K : Type) where
  x : K
  y : K
  z : K
deriving DecidableEq

/-- Component along a coordinate axis: xyz[..., dim] with x:0, y:1, z:2. -/
def Vec3.nth {K : Type} (v : Vec3 K) (dim : Fin 3) : K :=
  if dim.val = 0 then v.x else if dim.val = 1 then v.y else v.z

/-- The trajectory abstraction used by analysis.py: a topology (per-atom name
and whether the atom belongs to a water residue) plus per-frame per-atom
coordinates (traj.xyz). -/
structure Traj (K : Type) where
  top : List (String × Bool)
  xyz : List (List (Vec3 K))
deriving DecidableEq

/-- traj.n_frames. -/
def Traj.nFrames {K : Type} (t : Traj K) : ℕ := t.xyz.length

def nameO : String := "O"

def nameH : String := "H"

/-- Atom indices returned by traj.top.select("water and name nm"). -/
def selectWaterName {K : Type} (t : Traj K) (nm : String) : List ℕ :=
  t.top.enum.filterMap (fun p => if p.2.2 && (p.2.1 == nm) then some p.1 else none)

/-- Atom indices returned by traj.topology.select("name nm") (no water filter;
this is the selection used by compute_mol_per_area). -/
def selectName {K : Type} (t : Traj K) (nm : String) : List ℕ :=
  t.top.enum.filterMap (fun p => if p.2.1 == nm then some p.1 else none)

/-- traj.atom_slice(idx): restrict the topology and every frame to the chosen
atom indices, in the given order. -/
def atomSlice {K : Type} (t : Traj K) (idx : List ℕ) : Traj K :=
  { top := idx.filterMap (fun i => t.top.get? i),
    xyz := t.xyz.map (fun fr => idx.filterMap (fun i => fr.get? i)) }

/-- np.arange(start, stop, step) in exact arithmetic: values start + k*step
for k < ⌈(stop - start)/step⌉ (numpy computes this length; it is 0 when the
quotient is not positive).  The step = 0 case raises in numpy and is handled
by the Run wrappers below. -/
def arange {K : Type} [LinearOrderedField K] [FloorRing K] (start stop step : K) :
    List K :=
  (List.range (Int.toNat ⌈(stop - start) / step⌉)).map
    (fun (k : ℕ) => start + (k : K) * step)

/-- The binning mask of analysis.py:
np.logical_and(d > c - 0.5*bin_width, d < c + 0.5*bin_width). -/
def inBin {K : Type} [LinearOrderedField K] (binWidth c d : K) : Bool :=
  decide (d > c - 0.5 * binWidth) && decide (d < c + 0.5 * binWidth)

/-- Float division: a finite quotient unless the divisor is zero, in which
case the float result is NaN or ±infinity (`none` here). -/
def npDiv {K : Type} [LinearOrderedField K] (a b : K) : Option K :=
  if b = 0 then none else some (a / b)

/-- np.mean of a 1-D selection: NaN (`none`) on an empty selection. -/
def npMean {K : Type} [LinearOrderedField K] (l : List K) : Option K :=
  if l.isEmpty then none else some (l.sum / (l.length : K))

/-- np.sign. -/
def npSign {K : Type} [LinearOrderedField K] (a : K) : K :=
  if a < 0 then -1 else if a = 0 then 0 else 1

/-- np.isclose(a, b) with explicit rtol and atol:
|a - b| <= atol + rtol * |b|. -/
def npIsClose {K : Type} [LinearOrderedField K] (a b rtol atol : K) : Bool :=
  decide (|a - b| ≤ atol + rtol * |b|)

/-- The per-frame per-atom signed (or, under symmetrize, absolute) distances
traj.xyz[:, :, dim] - pore_center of compute_density/compute_s/compute_angle. -/
def distancesOf {K : Type} [LinearOrderedField K] (t : Traj K) (dim : Fin 3)
    (poreCenter : K) (symmetrize : Bool) : List (List K) :=
  t.xyz.map (fun fr => fr.map (fun v =>
    if symmetrize then |v.nth dim - poreCenter| else v.nth dim - poreCenter))

/-- compute_density(traj, area, surface_normal_dim, pore_center, max_distance,
bin_width, symmetrize): the bin-center loop appends one center and one density
value per np.arange step; mask.sum() is the count of samples (over all frames
and atoms) strictly inside the bin window. -/
def computeDensity {K : Type} [LinearOrderedField K] [FloorRing K] (traj : Traj K)
    (area : K) (dim : Fin 3) (poreCenter maxDistance binWidth : K)
    (symmetrize : Bool) : List K × List (Option K) :=
  let distances := (distancesOf traj dim poreCenter symmetrize).flatten
  let nFrames : K := (traj.nFrames : K)
  (arange (-maxDistance) maxDistance binWidth).foldl
    (fun acc c =>
      let cnt : K := ((distances.countP (fun d => inBin binWidth c d) : ℕ) : K)
      let dens : Option K :=
        if symmetrize then
          if npIsClose c 0 (1 / 100000) (1 / 100000000) then
            npDiv cnt (area * 1 * binWidth * nFrames)
          else
            npDiv cnt (area * 2 * binWidth * nFrames)
        else
          npDiv cnt (area * binWidth * nFrames)
      (acc.1 ++ [c], acc.2 ++ [dens]))
    ([], [])

def errZeroDivision : String := "ZeroDivisionError: division by zero"

/-- compute_density at top level: np.arange raises ZeroDivisionError when the
step (bin_width) is zero, before any output is produced. -/
def computeDensityRun {K : Type} [LinearOrderedField K] [FloorRing K] (traj : Traj K)
    (area : K) (dim : Fin 3) (poreCenter maxDistance binWidth : K)
    (symmetrize : Bool) : Except String (List K × List (Option K)) :=
  if binWidth = 0 then Except.error errZeroDivision
  else Except.ok (computeDensity traj area dim poreCenter maxDistance binWidth symmetrize)

/-- The append-accumulating loop shared by the binning routines is a map. -/
theorem foldl_append_pair {α γ : Type} (l : List α) (g : α → γ)
    (acc : List α × List γ) :
    l.foldl (fun acc c => (acc.1 ++ [c], acc.2 ++ [g c])) acc
      = (acc.1 ++ l, acc.2 ++ l.map g) := by
  induction l generalizing acc with
  | nil => simp
  | cons a l ih => simp [ih]

/-- compute_density with symmetrize=False, in map form. -/
theorem computeDensity_false_eq {K : Type} [LinearOrderedField K] [FloorRing K]
    (t : Traj K) (A : K) (dim : Fin 3) (pc md bw : K) :
    computeDensity t A dim pc md bw false
      = (arange (-md) md bw,
         (arange (-md) md bw).map (fun c =>
           npDiv (((distancesOf t dim pc false).flatten.countP
               (fun d => inBin bw c d) : ℕ) : K)
             (A * bw * (t.nFrames : K)))) := by
  unfold computeDensity
  rw [foldl_append_pair]
  simp

/-- compute_density with symmetrize=True, in map form. -/
theorem computeDensity_true_eq {K : Type} [LinearOrderedField K] [FloorRing K]
    (t : Traj K) (A : K) (dim : Fin 3) (pc md bw : K) :
    computeDensity t A dim pc md bw true
      = (arange (-md) md bw,
         (arange (-md) md bw).map (fun c =>
           let cnt : K := (((distancesOf t dim pc true).flatten.countP
               (fun d => inBin bw c d) : ℕ) : K)
           if npIsClose c 0 (1 / 100000) (1 / 100000000) then
             npDiv cnt (A * 1 * bw * (t.nFrames : K))
           else
             npDiv cnt (A * 2 * bw * (t.nFrames : K)))) := by
  unfold computeDensity
  rw [foldl_append_pair]
  simp

/-- Bin centers component of compute_density (symmetrize=False). -/
theorem computeDensity_false_fst {K : Type} [LinearOrderedField K] [FloorRing K]
    (t : Traj K) (A : K) (dim : Fin 3) (pc md bw : K) :
    (computeDensity t A dim pc md bw false).1 = arange (-md) md bw := by
  rw [computeDensity_false_eq]

/-- Density component of compute_density (symmetrize=False). -/
theorem computeDensity_false_snd {K : Type} [LinearOrderedField K] [FloorRing K]
    (t : Traj K) (A : K) (dim : Fin 3) (pc md bw : K) :
    (computeDensity t A dim pc md bw false).2
      = (arange (-md) md bw).map (fun c =>
          npDiv (((distancesOf t dim pc false).flatten.countP
              (fun d => inBin bw c d) : ℕ) : K)
            (A * bw * (t.nFrames : K))) := by
  rw [computeDensity_false_eq]

/-- Bin centers component of compute_density (symmetrize=True). -/
theorem computeDensity_true_fst {K : Type} [LinearOrderedField K] [FloorRing K]
    (t : Traj K) (A : K) (dim : Fin 3) (pc md bw : K) :
    (computeDensity t A dim pc md bw true).1 = arange (-md) md bw := by
  rw [computeDensity_true_eq]

/-- Density component of compute_density (symmetrize=True). -/
theorem computeDensity_true_snd {K : Type} [LinearOrderedField K] [FloorRing K]
    (t : Traj K) (A : K) (dim : Fin 3) (pc md bw : K) :
    (computeDensity t A dim pc md bw true).2
      = (arange (-md) md bw).map (fun c =>
          let cnt : K := (((distancesOf t dim pc true).flatten.countP
              (fun d => inBin bw c d) : ℕ) : K)
          if npIsClose c 0 (1 / 100000) (1 / 100000000) then
            npDiv cnt (A * 1 * bw * (t.nFrames : K))
          else
            npDiv cnt (A * 2 * bw * (t.nFrames : K))) := by
  rw [computeDensity_true_eq]

/-- Index characterisation of the np.arange bin-center list: the k-th center
exists and equals -max_distance + k*bin_width exactly while that value is
below max_distance. -/
theorem arange_get? {K : Type} [LinearOrderedField K] [FloorRing K]
    (md bw : K) (hbw : 0 < bw) (k : ℕ) :
    (arange (-md) md bw).get? k
      = if -md + (k : K) * bw < md then some (-md + (k : K) * bw) else none := by
  have hiff : (k < Int.toNat ⌈(md - -md) / bw⌉) ↔ (-md + (k : K) * bw < md) := by
    rw [Int.lt_toNat, Int.lt_ceil, lt_div_iff₀ hbw]
    push_cast
    constructor <;> intro h <;> linarith
  unfold arange
  rw [List.get?_map]
  by_cases h : -md + (k : K) * bw < md
  · rw [List.get?_range (hiff.mpr h), if_pos h]
    rfl
  · rw [if_neg h]
    have hlen : (List.range (Int.toNat ⌈(md - -md) / bw⌉)).get? k = none := by
      rw [List.get?_eq_none]
      simpa using not_lt.mp (fun hk => h (hiff.mp hk))
    rw [hlen]
    rfl

/-- Successive arange centers are bin_width apart. -/
theorem arange_pairwise_sep {K : Type} [LinearOrderedField K] [FloorRing K]
    (md bw : K) (hbw : 0 < bw) :
    (arange (-md) md bw).Pairwise (fun a b => bw ≤ |a - b|) := by
  unfold arange
  refine List.Pairwise.map _ ?_ (List.pairwise_lt_range _)
  intro a b hab
  have hle : (a : K) + 1 ≤ (b : K) := by exact_mod_cast Nat.succ_le_of_lt hab
  have h1 : ((-md + (a : K) * bw) - (-md + (b : K) * bw)) = -(((b : K) - (a : K)) * bw) := by
    ring
  rw [h1, abs_neg, abs_of_nonneg (by nlinarith)]
  nlinarith

/-- The strict mask window, spelled with bin_width/2. -/
theorem inBin_iff {K : Type} [LinearOrderedField K] (bw c d : K) :
    inBin bw c d = true ↔ (c - bw / 2 < d ∧ d < c + bw / 2) := by
  have h05 : (0.5 : K) * bw = bw / 2 := by norm_num; ring
  unfold inBin
  rw [Bool.and_eq_true, decide_eq_true_eq, decide_eq_true_eq]
  constructor <;> rintro ⟨ha, hb⟩ <;> constructor <;> linarith [h05]

/-- Mask evaluation helper (true case). -/
theorem inBin_eq_true {K : Type} [LinearOrderedField K] {bw c d : K}
    (h : c - bw / 2 < d ∧ d < c + bw / 2) : inBin bw c d = true :=
  (inBin_iff bw c d).mpr h

/-- Mask evaluation helper (false case). -/
theorem inBin_eq_false {K : Type} [LinearOrderedField K] {bw c d : K}
    (h : ¬(c - bw / 2 < d ∧ d < c + bw / 2)) : inBin bw c d = false := by
  rw [← Bool.not_eq_true, inBin_iff]
  exact h

/-- z-component selection (surface_normal_dim = 2, the default). -/
theorem Vec3.nth_z {K : Type} (v : Vec3 K) : v.nth 2 = v.z := rfl

/-- The two bins produced by max_distance = 1, bin_width = 1. -/
theorem arange_unit : arange (-1 : ℚ) 1 1 = [-1, 0] := by
  simp only [arange]
  rw [show Int.toNat ⌈((1 : ℚ) - -1) / 1⌉ = 2 from by norm_num; decide]
  norm_num [List.range_succ]

/-- A sample cannot lie strictly inside two bins whose centers are at least a
bin width apart. -/
theorem not_inBin_both {K : Type} [LinearOrderedField K] {bw c c' d : K}
    (hsep : bw ≤ |c - c'|) (h1 : inBin bw c d = true) (h2 : inBin bw c' d = true) :
    False := by
  rw [inBin_iff] at h1 h2
  rcases le_abs.mp hsep with h | h <;> linarith [h1.1, h1.2, h2.1, h2.2]

/-- Counting a disjunction of disjoint predicates splits into a sum. -/
theorem countP_or_disjoint {α : Type} (p q : α → Bool) (l : List α)
    (h : ∀ a ∈ l, ¬(p a = true ∧ q a = true)) :
    l.countP (fun a => p a || q a) = l.countP p + l.countP q := by
  induction l with
  | nil => simp
  | cons a l ih =>
    have ha := h a (List.mem_cons_self a l)
    have hl : ∀ b ∈ l, ¬(p b = true ∧ q b = true) := fun b hb =>
      h b (List.mem_cons_of_mem a hb)
    by_cases hp : p a = true <;> by_cases hq : q a = true
    · exact absurd ⟨hp, hq⟩ ha
    all_goals (simp [List.countP_cons, hp, hq, ih hl]; try omega)

/-- With pairwise-separated bin centers, the per-bin counts add up to the
number of samples lying strictly inside some bin. -/
theorem sum_countP_bins {K : Type} [LinearOrderedField K] (bw : K)
    (bins samples : List K)
    (hsep : bins.Pairwise (fun a b => bw ≤ |a - b|)) :
    (bins.map (fun c => samples.countP (fun d => inBin bw c d))).sum
      = samples.countP (fun d => bins.any (fun c => inBin bw c d)) := by
  induction bins with
  | nil => simp
  | cons c rest ih =>
    rcases List.pairwise_cons.mp hsep with ⟨hc, hrest⟩
    have hdisj : ∀ d ∈ samples,
        ¬((fun d => inBin bw c d) d = true
          ∧ (fun d => rest.any (fun c' => inBin bw c' d)) d = true) := by
      rintro d _ ⟨h1, h2⟩
      rcases List.any_eq_true.mp h2 with ⟨c', hc', h2'⟩
      exact not_inBin_both (hc c' hc') h1 h2'
    rw [List.map_cons, List.sum_cons, ih hrest,
      ← countP_or_disjoint _ _ _ hdisj]
    simp only [List.any_cons]

/-- The bin-centers component returned by compute_density is exactly the
np.arange list, for either symmetrize mode. -/
theorem computeDensity_fst {K : Type} [LinearOrderedField K] [FloorRing K]
    (t : Traj K) (A : K) (dim : Fin 3) (pc md bw : K) (sym : Bool) :
    (computeDensity t A dim pc md bw sym).1 = arange (-md) md bw := by
  unfold computeDensity
  rw [foldl_append_pair]
  simp

/-- C3: the binning loop returns bin centers c_k = -max_distance + k*bin_width
for k = 0, 1, 2, ... exactly while c_k < max_distance, monotonically
increasing and evenly spaced; for max_distance = 1 and bin_width = 0.01 the
list has exactly 200 elements and starts at -1. -/
theorem c3_bin_centers :
    (∀ (t : Traj ℚ) (A pc md bw : ℚ) (dim : Fin 3) (sym : Bool),
        (computeDensity t A dim pc md bw sym).1 = arange (-md) md bw) ∧
    (∀ md bw : ℚ, 0 < bw →
      (∀ k : ℕ, (arange (-md) md bw).get? k
          = if -md + (k : ℚ) * bw < md then some (-md + (k : ℚ) * bw) else none) ∧
      (arange (-md) md bw).Pairwise (· < ·) ∧
      (∀ (k : ℕ) (a b : ℚ), (arange (-md) md bw).get? k = some a →
          (arange (-md) md bw).get? (k + 1) = some b → b - a = bw)) ∧
    (arange (-1 : ℚ) 1 (1 / 100)).length = 200 ∧
    (arange (-1 : ℚ) 1 (1 / 100)).get? 0 = some (-1) := by
  refine ⟨fun t A pc md bw dim sym => computeDensity_fst t A dim pc md bw sym,
    fun md bw hbw => ⟨arange_get? md bw hbw, ?_, ?_⟩, ?_, ?_⟩
  · unfold arange
    refine List.Pairwise.map _ ?_ (List.pairwise_lt_range _)
    intro a b hab
    have hle : (a : ℚ) < (b : ℚ) := by exact_mod_cast hab
    nlinarith
  · intro k a b ha hb
    rw [arange_get? md bw hbw] at ha hb
    by_cases h1 : -md + (k : ℚ) * bw < md
    · by_cases h2 : -md + ((k + 1 : ℕ) : ℚ) * bw < md
      · rw [if_pos h1] at ha
        rw [if_pos h2] at hb
        obtain rfl := Option.some_injective _ ha
        obtain rfl := Option.some_injective _ hb
        push_cast
        ring
      · rw [if_neg h2] at hb
        exact absurd hb (by simp)
    · rw [if_neg h1] at ha
      exact absurd ha (by simp)
  · simp only [arange]
    rw [List.length_map, List.length_range]
    norm_num
    decide
  · rw [arange_get? 1 (1 / 100) (by norm_num) 0,
      if_pos (by norm_num : (-1 : ℚ) + ((0 : ℕ) : ℚ) * (1 / 100) < 1)]
    norm_num

/-- C3 witness: instantiation at max_distance = 1, bin_width = 1/100, k = 0. -/
theorem c3_witness :
    (0 : ℚ) < 1 / 100 ∧ (arange (-1 : ℚ) 1 (1 / 100)).get? 0 = some (-1) := by
  refine ⟨by norm_num, ?_⟩
  have h := (c3_bin_centers.2.1 1 (1 / 100) (by norm_num)).1 0
  rw [h, if_pos (by norm_num : (-1 : ℚ) + (0 : ℕ) * (1 / 100) < 1)]
  norm_num

def trajC4 : Traj ℚ := { top := [(nameO, true)], xyz := [[⟨0, 0, -1/2⟩]] }

/-- C4: bin membership is the strict open window: a sample at exactly
bin_center + 0.5*bin_width is excluded from that bin, and a sample exactly on
the boundary shared by two adjacent bins (centers c and c + bin_width) is
counted by neither; concretely, compute_density counts a particle sitting at
the shared boundary -0.5 of the bins centered at -1 and 0 in neither bin. -/
theorem c4_boundary_exclusive :
    (∀ bw c : ℚ, inBin bw c (c + 0.5 * bw) = false
        ∧ inBin bw (c + bw) (c + 0.5 * bw) = false) ∧
    (computeDensity trajC4 1 2 0 1 1 false).2 = [some 0, some 0] := by
  constructor
  · intro bw c
    have h05 : (0.5 : ℚ) * bw = bw / 2 := by norm_num; ring
    constructor
    · exact inBin_eq_false (by rintro ⟨-, hb⟩; linarith)
    · exact inBin_eq_false (by rintro ⟨ha, -⟩; linarith)
  · have hd : (distancesOf trajC4 2 0 false).flatten = [-(1/2)] := by
      simp [distancesOf, trajC4, Vec3.nth_z]
      norm_num
    have hb1 : inBin (1 : ℚ) (-1) (-(1/2)) = false :=
      inBin_eq_false (by rintro ⟨-, hb⟩; norm_num at hb)
    have hb2 : inBin (1 : ℚ) 0 (-(1/2)) = false :=
      inBin_eq_false (by rintro ⟨ha, -⟩; norm_num at ha)
    rw [computeDensity_false_snd, arange_unit]
    simp only [List.map_cons, List.map_nil]
    rw [hd]
    simp only [List.countP_cons, List.countP_nil, hb1, hb2]
    norm_num [npDiv, Traj.nFrames, trajC4]

def trajC1 : Traj ℚ := { top := [(nameO, true)], xyz := [[⟨0, 0, 3/4⟩]] }

/-- C1 counterexample: a single particle-frame sample at signed distance 3/4
with max_distance = 1, bin_width = 1 lies inside [-max_distance, max_distance)
but inside no bin window (the bins are centered at -1 and 0, covering
(-1.5,-0.5) and (-0.5,0.5)), so the sum of density * area * bin_width *
n_frames over bins is 0 while the claimed total is 1. -/
theorem c1_counterexample :
    (computeDensity trajC1 1 2 0 1 1 false).2 = [some 0, some 0] ∧
    ((computeDensity trajC1 1 2 0 1 1 false).2.map
        (fun v => v.getD 0 * (1 * 1 * (trajC1.nFrames : ℚ)))).sum
      ≠ (((distancesOf trajC1 2 0 false).flatten.countP
          (fun d => decide ((-1 : ℚ) ≤ d) && decide (d < 1)) : ℕ) : ℚ) := by
  have hd : (distancesOf trajC1 2 0 false).flatten = [3/4] := by
    simp [distancesOf, trajC1, Vec3.nth_z]
  have hb1 : inBin (1 : ℚ) (-1) (3/4) = false :=
    inBin_eq_false (by rintro ⟨-, hb⟩; norm_num at hb)
  have hb2 : inBin (1 : ℚ) 0 (3/4) = false :=
    inBin_eq_false (by rintro ⟨-, hb⟩; norm_num at hb)
  have hdens : (computeDensity trajC1 1 2 0 1 1 false).2 = [some 0, some 0] := by
    rw [computeDensity_false_snd, arange_unit]
    simp only [List.map_cons, List.map_nil]
    rw [hd]
    simp only [List.countP_cons, List.countP_nil, hb1, hb2]
    norm_num [npDiv, Traj.nFrames, trajC1]
  refine ⟨hdens, ?_⟩
  rw [hdens, hd]
  norm_num [List.countP_cons, List.countP_nil, Traj.nFrames, trajC1]

/-- C1 (amended): with symmetrize=False, positive area, bin_width and
max_distance and at least one frame, every density is finite and the sum over
all bins of density * area * bin_width * n_frames equals the number of
particle-frame samples whose signed distance lies strictly inside some bin's
open window (samples exactly on a bin boundary, or in the gap
[last_center + bin_width/2, max_distance), are counted by no bin). -/
theorem c1_amended (t : Traj ℚ) (A pc md bw : ℚ) (dim : Fin 3)
    (hA : 0 < A) (hbw : 0 < bw) (hmd : 0 < md) (hnf : t.xyz ≠ []) :
    (∀ v ∈ (computeDensity t A dim pc md bw false).2, v.isSome = true) ∧
    ((computeDensity t A dim pc md bw false).2.map
        (fun v => v.getD 0 * (A * bw * (t.nFrames : ℚ)))).sum
      = (((distancesOf t dim pc false).flatten.countP
          (fun d => (arange (-md) md bw).any (fun c => inBin bw c d)) : ℕ) : ℚ) := by
  have hn : (0 : ℚ) < (t.nFrames : ℚ) := by
    have h0 : t.xyz.length ≠ 0 := fun h => hnf (List.length_eq_zero.mp h)
    exact_mod_cast Nat.pos_of_ne_zero h0
  have hD : A * bw * (t.nFrames : ℚ) ≠ 0 := by positivity
  rw [computeDensity_false_snd]
  constructor
  · intro v hv
    simp only [List.mem_map] at hv
    obtain ⟨c, -, rfl⟩ := hv
    simp [npDiv, hD]
  · rw [List.map_map]
    have hfun : ((fun v : Option ℚ => v.getD 0 * (A * bw * (t.nFrames : ℚ))) ∘
        (fun c => npDiv (((distancesOf t dim pc false).flatten.countP
            (fun d => inBin bw c d) : ℕ) : ℚ) (A * bw * (t.nFrames : ℚ))))
        = fun c => (((distancesOf t dim pc false).flatten.countP
            (fun d => inBin bw c d) : ℕ) : ℚ) := by
      funext c
      simp [npDiv, hD, div_mul_cancel₀]
    rw [hfun]
    have hstep : (arange (-md) md bw).map (fun c =>
          (((distancesOf t dim pc false).flatten.countP
            (fun d => inBin bw c d) : ℕ) : ℚ))
        = ((arange (-md) md bw).map (fun c =>
            (distancesOf t dim pc false).flatten.countP
              (fun d => inBin bw c d))).map (fun n : ℕ => (n : ℚ)) := by
      rw [List.map_map]
      rfl
    rw [hstep, ← Nat.cast_list_sum,
      sum_countP_bins bw _ _ (arange_pairwise_sep md bw hbw)]

def trajC1w : Traj ℚ := { top := [(nameO, true)], xyz := [[⟨0, 0, 0⟩]] }

/-- C1 witness: the amended mass-balance theorem applied to a one-particle,
one-frame trajectory with area = bin_width = max_distance = 1. -/
theorem c1_witness :
    ((0 : ℚ) < 1 ∧ trajC1w.xyz ≠ []) ∧
    ((computeDensity trajC1w 1 2 0 1 1 false).2.map
        (fun v => v.getD 0 * (1 * 1 * (trajC1w.nFrames : ℚ)))).sum
      = (((distancesOf trajC1w 2 0 false).flatten.countP
          (fun d => (arange (-1 : ℚ) 1 1).any (fun c => inBin 1 c d)) : ℕ) : ℚ) := by
  refine ⟨⟨by norm_num, by decide⟩, ?_⟩
  exact (c1_amended trajC1w 1 0 1 1 2 (by norm_num) (by norm_num) (by norm_num)
    (by decide)).2

def trajC2 : Traj ℚ :=
  { top := [(nameO, true)], xyz := [[⟨0, 0, 1/1000000000⟩]] }

/-- C2 counterexample: with max_distance = 3e-9 and bin_width = 2e-9 under
symmetrize=True, the bin centered at 1e-9 is not centered at exactly 0.0, yet
np.isclose(1e-9, 0) holds (tolerance 1e-8), so its one-sample count is divided
by area * 1 * bin_width * n_frames (giving 5e8) instead of the claimed
factor-2 divisor (which would give 2.5e8). -/
theorem c2_counterexample :
    (computeDensity trajC2 1 2 0 (3/1000000000) (2/1000000000) true).1.get? 2
        = some (1/1000000000) ∧
    ((1 : ℚ)/1000000000) ≠ 0 ∧
    (computeDensity trajC2 1 2 0 (3/1000000000) (2/1000000000) true).2.get? 2
        = some (some 500000000) ∧
    some (some (500000000 : ℚ)) ≠ some (some (250000000 : ℚ)) := by
  have har : arange (-(3/1000000000) : ℚ) (3/1000000000) (2/1000000000)
      = [-(3/1000000000), -(1/1000000000), 1/1000000000] := by
    simp only [arange]
    rw [show Int.toNat ⌈((3/1000000000 : ℚ) - -(3/1000000000)) / (2/1000000000)⌉ = 3
      from by norm_num; decide]
    norm_num [List.range_succ]
  have hd : (distancesOf trajC2 2 0 true).flatten = [|(1/1000000000 : ℚ) - 0|] := by
    simp [distancesOf, trajC2, Vec3.nth_z]
  have hd2 : |(1/1000000000 : ℚ) - 0| = 1/1000000000 := by
    rw [sub_zero]
    exact abs_of_pos (by norm_num)
  have hcnt : (distancesOf trajC2 2 0 true).flatten.countP
      (fun d => inBin ((2 : ℚ)/1000000000) (1/1000000000) d) = 1 := by
    have hbin : inBin ((2 : ℚ)/1000000000) (1/1000000000) ((1 : ℚ)/1000000000)
        = true := inBin_eq_true (by constructor <;> norm_num)
    rw [hd, hd2]
    simp only [List.countP_cons, List.countP_nil, hbin]
    norm_num
  have hclose : npIsClose ((1 : ℚ)/1000000000) 0 (1/100000) (1/100000000) = true := by
    simp only [npIsClose, decide_eq_true_eq]
    rw [sub_zero, abs_zero, mul_zero, add_zero, abs_of_pos (by norm_num : (0:ℚ) < 1/1000000000)]
    norm_num
  refine ⟨?_, by norm_num, ?_, ?_⟩
  · rw [computeDensity_true_fst, har]
    rfl
  · rw [computeDensity_true_snd, har]
    simp only [List.map_cons, List.map_nil, List.get?]
    simp only [hclose, if_true]
    rw [hcnt]
    simp [npDiv, Traj.nFrames, trajC2]
    norm_num
  · simp only [ne_eq, Option.some.injEq]
    norm_num

/-- C2 (amended): with symmetrize=True the count-to-density divisor of a bin
uses factor 1 exactly when the bin center c satisfies the np.isclose test
|c| ≤ 1e-8 (not only at c = 0 exactly), and factor 2 otherwise. -/
theorem c2_amended (t : Traj ℚ) (A pc md bw : ℚ) (dim : Fin 3) (k : ℕ) (c : ℚ)
    (hk : (computeDensity t A dim pc md bw true).1.get? k = some c) :
    (computeDensity t A dim pc md bw true).2.get? k
      = some (if |c| ≤ 1 / 100000000 then
            npDiv (((distancesOf t dim pc true).flatten.countP
                (fun d => inBin bw c d) : ℕ) : ℚ) (A * 1 * bw * (t.nFrames : ℚ))
          else
            npDiv (((distancesOf t dim pc true).flatten.countP
                (fun d => inBin bw c d) : ℕ) : ℚ) (A * 2 * bw * (t.nFrames : ℚ))) := by
  rw [computeDensity_true_fst] at hk
  rw [computeDensity_true_snd, List.get?_map, hk]
  simp only [Option.map_some']
  have hiff : (npIsClose c 0 (1/100000) (1/100000000) = true) ↔ (|c| ≤ 1/100000000) := by
    simp [npIsClose]
  by_cases h : |c| ≤ 1/100000000
  · rw [if_pos h, if_pos (hiff.mpr h)]
  · rw [if_neg h, if_neg (fun hh => h (hiff.mp hh))]

def trajC2w : Traj ℚ := { top := [(nameO, true)], xyz := [[⟨0, 0, 0⟩]] }

/-- C2 witness: the amended divisor rule applied to the bin centered at -1
(not close to 0, so factor 2) of a one-particle trajectory. -/
theorem c2_witness :
    ((computeDensity trajC2w 1 2 0 1 1 true).1.get? 0 = some (-1)) ∧
    (computeDensity trajC2w 1 2 0 1 1 true).2.get? 0
      = some (npDiv 0 (1 * 2 * 1 * (trajC2w.nFrames : ℚ))) := by
  have h : (computeDensity trajC2w 1 2 0 1 1 true).1.get? 0 = some (-1) := by
    rw [computeDensity_true_fst, arange_unit]
    rfl
  have h2 := c2_amended trajC2w 1 0 1 1 2 0 (-1) h
  refine ⟨h, ?_⟩
  rw [h2, if_neg (by rw [abs_neg, abs_one]; norm_num : ¬(|(-1 : ℚ)| ≤ 1/100000000))]
  have hd : (distancesOf trajC2w 2 0 true).flatten = [0] := by
    simp [distancesOf, trajC2w, Vec3.nth_z]
  have hb : inBin (1 : ℚ) (-1) (0 : ℚ) = false :=
    inBin_eq_false (by rintro ⟨-, hb⟩; norm_num at hb)
  rw [hd]
  simp [List.countP_cons, hb]

/-- Python float semantics of the shift branch in compute_mol_per_area:
middle = float(n_bins / 2) (true division); if middle % 2 != 0 the index is
int(middle - 0.5), else int(middle); float modulo x % 2 = x - 2*floor(x/2) and
int() truncation (= floor for these nonnegative values) are modelled over ℚ. -/
def shiftIndex (nBins : ℕ) : ℕ :=
  let middle : ℚ := (nBins : ℚ) / 2
  if middle - 2 * ((⌊middle / 2⌋ : ℤ) : ℚ) ≠ 0 then Int.toNat ⌊middle - 1/2⌋
  else Int.toNat ⌊middle⌋

/-- np.histogram(data, bins=nBins, range=(lo, hi)) with uniform bins: per-bin
counts; each bin is [edge_i, edge_{i+1}) except the last, which is closed at
hi; samples outside [lo, hi] are dropped. -/
def histogramCounts {K : Type} [LinearOrderedField K] (data : List K) (nBins : ℕ)
    (lo hi : K) : List ℕ :=
  (List.range nBins).map (fun i =>
    let w := (hi - lo) / (nBins : K)
    if i + 1 = nBins then
      data.countP (fun x => decide (lo + (i : K) * w ≤ x) && decide (x ≤ hi))
    else
      data.countP (fun x =>
        decide (lo + (i : K) * w ≤ x) && decide (x < lo + ((i : K) + 1) * w)))

/-- The nBins+1 uniform histogram edges returned by np.histogram. -/
def histEdges {K : Type} [LinearOrderedField K] (nBins : ℕ) (lo hi : K) : List K :=
  (List.range (nBins + 1)).map (fun i => lo + (i : K) * ((hi - lo) / (nBins : K)))

/-- Midpoints of adjacent histogram edges (the new_bins loop of
compute_mol_per_area). -/
def midBins {K : Type} [LinearOrderedField K] (nBins : ℕ) (lo hi : K) : List K :=
  (List.range nBins).map (fun i =>
    ((histEdges nBins lo hi).getD i 0 + (histEdges nBins lo hi).getD (i + 1) 0) / 2)

def errUnboundLocal : String :=
  "UnboundLocalError: local variable referenced before assignment"

def errBinsPositive : String := "ValueError: bins must be positive, when an integer"

def errIndexError : String := "IndexError: index out of bounds"

/-- compute_mol_per_area(traj, area, dim, box_range, n_bins, shift,
frame_range).  The O atoms are selected, the per-residue index lists flatten
back to all O coordinates, per-frame histograms are accumulated and divided by
the frame count, edges become midpoints, and the shift branch subtracts the
midpoint at the Python-computed index.  The water_o[frame_range] slice is
numpy fancy indexing: an index at or beyond the frame count raises IndexError
(an empty Python range is falsy, so `if frame_range:` skips slicing).  A frame
list that ends up empty leaves the loop body unexecuted, so `areas`/`bins` are
unbound and Python raises UnboundLocalError; n_bins = 0 makes np.histogram
raise.  The `area` argument is accepted but never used by the body. -/
def computeMolPerArea {K : Type} [LinearOrderedField K] (traj : Traj K) (area : K)
    (dim : Fin 3) (boxRange : K × K) (nBins : ℕ) (shift : Bool)
    (frameRange : Option (List ℕ)) : Except String (List K × List K) :=
  let waterO := atomSlice traj (selectName traj nameO)
  let framesE : Except String (List (List (Vec3 K))) :=
    match frameRange with
    | none => Except.ok waterO.xyz
    | some [] => Except.ok waterO.xyz
    | some idxs =>
      if idxs.all (fun i => decide (i < waterO.xyz.length)) then
        Except.ok (idxs.filterMap (fun i => waterO.xyz.get? i))
      else Except.error errIndexError
  match framesE with
  | Except.error e => Except.error e
  | Except.ok [] => Except.error errUnboundLocal
  | Except.ok (f0 :: rest) =>
    if nBins = 0 then Except.error errBinsPositive
    else
      let counts := rest.foldl
        (fun acc fr => List.zipWith (· + ·) acc
          (histogramCounts (fr.map (fun v => v.nth dim)) nBins boxRange.1 boxRange.2))
        (histogramCounts (f0.map (fun v => v.nth dim)) nBins boxRange.1 boxRange.2)
      let areas := counts.map (fun cnt => (cnt : K) / (((f0 :: rest).length : ℕ) : K))
      let newBins := midBins nBins boxRange.1 boxRange.2
      let newBins2 :=
        if shift then newBins.map (fun b => b - newBins.getD (shiftIndex nBins) 0)
        else newBins
      Except.ok (areas, newBins2)

/-- The Python parity branch in the shift logic is not a no-op: the picked
index is n_bins//2 for odd n_bins and for multiples of 4, but n_bins//2 - 1
when n_bins ≡ 2 (mod 4). -/
theorem shiftIndex_char (n : ℕ) :
    shiftIndex n = if n % 4 = 2 then n / 2 - 1 else n / 2 := by
  have hq4 : ⌊((n : ℚ) / 2) / 2⌋ = (n : ℤ) / 4 := by
    rw [show ((n : ℚ) / 2) / 2 = ((n : ℤ) : ℚ) / ((4 : ℕ) : ℚ) by push_cast; ring,
      Rat.floor_intCast_div_natCast]
    norm_num
  have hq2 : ⌊(n : ℚ) / 2⌋ = (n : ℤ) / 2 := by
    rw [show (n : ℚ) / 2 = ((n : ℤ) : ℚ) / ((2 : ℕ) : ℚ) by push_cast; ring,
      Rat.floor_intCast_div_natCast]
    norm_num
  simp only [shiftIndex, hq4, hq2]
  by_cases h4 : n % 4 = 0
  · obtain ⟨m, rfl⟩ : ∃ m, n = 4 * m := ⟨n / 4, by omega⟩
    have hcond : ((4 * m : ℕ) : ℚ) / 2 - 2 * ((((4 * m : ℕ) : ℤ) / 4 : ℤ) : ℚ) = 0 := by
      rw [show ((4 * m : ℕ) : ℤ) / 4 = (m : ℤ) by push_cast; omega]
      push_cast
      ring
    rw [if_neg (not_not_intro hcond)]
    rw [if_neg (by omega : ¬ (4 * m) % 4 = 2)]
    omega
  · have hne : ((n : ℚ) / 2 - 2 * ((((n : ℤ) / 4 : ℤ) : ℚ)) ≠ 0) := by
      intro h0
      have h1 : (n : ℚ) = 4 * ((((n : ℤ) / 4 : ℤ) : ℚ)) := by linarith
      have h2 : (n : ℤ) = 4 * ((n : ℤ) / 4) := by exact_mod_cast h1
      omega
    rw [if_pos hne]
    have hq : ⌊(n : ℚ) / 2 - 1/2⌋ = ((n : ℤ) - 1) / 2 := by
      rw [show (n : ℚ) / 2 - 1/2 = ((((n : ℤ) - 1 : ℤ)) : ℚ) / ((2 : ℕ) : ℚ) by
        push_cast; ring, Rat.floor_intCast_div_natCast]
      norm_num
    rw [hq]
    by_cases h2 : n % 4 = 2
    · rw [if_pos h2]
      omega
    · rw [if_neg h2]
      omega

/-- compute_mol_per_area on a trajectory with at least one frame and a
positive bin count, in closed form. -/
theorem computeMolPerArea_ok {K : Type} [LinearOrderedField K] (t : Traj K)
    (area : K) (dim : Fin 3) (lo hi : K) (nBins : ℕ) (shift : Bool)
    (f0 : List (Vec3 K)) (rest : List (List (Vec3 K)))
    (hfr : (atomSlice t (selectName t nameO)).xyz = f0 :: rest) (hn : nBins ≠ 0) :
    computeMolPerArea t area dim (lo, hi) nBins shift none
      = Except.ok
          ((rest.foldl (fun acc fr => List.zipWith (· + ·) acc
              (histogramCounts (fr.map (fun v => v.nth dim)) nBins lo hi))
            (histogramCounts (f0.map (fun v => v.nth dim)) nBins lo hi)).map
              (fun cnt => (cnt : K) / (((f0 :: rest).length : ℕ) : K)),
           if shift then (midBins nBins lo hi).map
               (fun b => b - (midBins nBins lo hi).getD (shiftIndex nBins) 0)
             else midBins nBins lo hi) := by
  simp only [computeMolPerArea, hfr]
  rw [if_neg hn]

/-- C10: the output of compute_mol_per_area is independent of its area
argument: the function body never reads `area`. -/
theorem c10_area_independent (t : Traj ℚ) (a1 a2 : ℚ) (dim : Fin 3) (br : ℚ × ℚ)
    (nBins : ℕ) (shift : Bool) (fr : Option (List ℕ)) :
    computeMolPerArea t a1 dim br nBins shift fr
      = computeMolPerArea t a2 dim br nBins shift fr := rfl

def trajEmpty : Traj ℚ := { top := [(nameO, true)], xyz := [] }

/-- C8 counterexample: on an empty trajectory, compute_mol_per_area's frame
loop never executes, so the local variables `areas` and `bins` are unbound and
Python raises UnboundLocalError; the routine does not return a NaN/infinity
result. -/
theorem c8_counterexample :
    computeMolPerArea trajEmpty 1 2 (0, 1) 2 true none
      = Except.error errUnboundLocal := rfl

def trajC7 : Traj ℚ := { top := [(nameO, true)], xyz := [[⟨0, 0, 1/2⟩]] }

/-- Histogram of the single O coordinate 1/2 over [0, 2] with two bins. -/
theorem histC7 : histogramCounts [(1 : ℚ)/2] 2 0 2 = [1, 0] := by
  norm_num [histogramCounts, List.range_succ, List.countP_cons, List.countP_nil]

/-- The two midpoint bin centers for box_range (0, 2), n_bins 2. -/
theorem midBinsC7 : midBins 2 (0 : ℚ) 2 = [1/2, 3/2] := by
  norm_num [midBins, histEdges, List.range_succ, List.getD, List.get?]

/-- The Python shift index for n_bins = 2 is 0 (not 2//2 = 1). -/
theorem shiftIndexTwo : shiftIndex 2 = 0 := by
  rw [shiftIndex_char]
  rfl

/-- C7 counterexample: for n_bins = 2 (≡ 2 mod 4) the shift subtracts
new_bins[0] = 1/2 (giving centers [0, 1]), not new_bins[n_bins//2] =
new_bins[1] = 3/2 (which would give [-1, 0]). -/
theorem c7_counterexample :
    computeMolPerArea trajC7 1 2 (0, 2) 2 true none = Except.ok ([1, 0], [0, 1]) ∧
    ([0, 1] : List ℚ) ≠ (midBins 2 (0 : ℚ) 2).map
        (fun b => b - (midBins 2 (0 : ℚ) 2).getD (2 / 2) 0) := by
  constructor
  · rw [computeMolPerArea_ok trajC7 1 2 0 2 2 true [⟨0, 0, 1/2⟩] [] rfl
      (by norm_num)]
    simp only [List.foldl_nil, List.map_cons, List.map_nil, Vec3.nth_z]
    rw [histC7, midBinsC7, shiftIndexTwo]
    norm_num [List.getD, List.get?]
  · rw [midBinsC7]
    norm_num [List.getD, List.get?]

/-- C7 (amended): with shift=True, at least one frame and n_bins ≥ 1, the
returned bin centers are the midpoint centers with the midpoint at the
Python-computed index subtracted, and that index equals n_bins//2 for odd
n_bins and multiples of 4 but n_bins//2 - 1 when n_bins ≡ 2 (mod 4) — the
parity branch is not a no-op. -/
theorem c7_amended (t : Traj ℚ) (area : ℚ) (dim : Fin 3) (lo hi : ℚ) (nBins : ℕ)
    (f0 : List (Vec3 ℚ)) (rest : List (List (Vec3 ℚ)))
    (hfr : (atomSlice t (selectName t nameO)).xyz = f0 :: rest) (hn : nBins ≠ 0) :
    (∃ ar : List ℚ, computeMolPerArea t area dim (lo, hi) nBins true none
        = Except.ok (ar, (midBins nBins lo hi).map
            (fun b => b - (midBins nBins lo hi).getD (shiftIndex nBins) 0))) ∧
    shiftIndex nBins = (if nBins % 4 = 2 then nBins / 2 - 1 else nBins / 2) := by
  constructor
  · rw [computeMolPerArea_ok t area dim lo hi nBins true f0 rest hfr hn]
    exact ⟨_, rfl⟩
  · exact shiftIndex_char nBins

/-- C7 witness: the amended shift rule applied to a one-frame, one-oxygen
trajectory with n_bins = 2. -/
theorem c7_witness :
    ((atomSlice trajC7 (selectName trajC7 nameO)).xyz = [[⟨0, 0, 1/2⟩]]
        ∧ (2 : ℕ) ≠ 0) ∧
    (∃ ar : List ℚ, computeMolPerArea trajC7 1 2 (0, 2) 2 true none
        = Except.ok (ar, (midBins 2 (0 : ℚ) 2).map
            (fun b => b - (midBins 2 (0 : ℚ) 2).getD (shiftIndex 2) 0))) ∧
    shiftIndex 2 = (if 2 % 4 = 2 then 2 / 2 - 1 else 2 / 2) := by
  exact ⟨⟨rfl, by norm_num⟩,
    c7_amended trajC7 1 2 0 2 2 [⟨0, 0, 1/2⟩] [] rfl (by norm_num)⟩

/-- Consecutive pairing of the hydrogen atoms of a frame: the reshape
(n_frames, -1, 2, 3) applied to traj_hw.xyz. -/
def pairsOf {α : Type} : List α → List (α × α)
  | a :: b :: rest => (a, b) :: pairsOf rest
  | _ => []

/-- Componentwise mean of the two hydrogen positions (.mean(axis=2)). -/
def midv {K : Type} [LinearOrderedField K] (a b : Vec3 K) : Vec3 K :=
  ⟨(a.x + b.x) / 2, (a.y + b.y) / 2, (a.z + b.z) / 2⟩

/-- Componentwise difference (traj_ow.xyz - hw_midpoints). -/
def vsub {K : Type} [LinearOrderedField K] (a b : Vec3 K) : Vec3 K :=
  ⟨a.x - b.x, a.y - b.y, a.z - b.z⟩

/-- vectors /= np.linalg.norm(vectors, axis=-1, keepdims=True). -/
noncomputable def normalize3 (v : Vec3 ℝ) : Vec3 ℝ :=
  let n := Real.sqrt (v.x ^ 2 + v.y ^ 2 + v.z ^ 2)
  ⟨v.x / n, v.y / n, v.z / n⟩

/-- Per-frame per-molecule cos(angle): the surface-normal component of the
unit H-H-midpoint-to-oxygen vector.  This models the successful path of the
reshape (n_frames, -1, 2, 3) of traj_hw.xyz followed by .mean(axis=2); the
reshape's ValueError on a size-0 hydrogen array (n_frames = 0), which numpy
raises before any of this runs, is carried by computeSRun/computeAngleRun
below. -/
noncomputable def cosAngles (trajOw trajHw : Traj ℝ) (dim : Fin 3) :
    List (List ℝ) :=
  (trajOw.xyz.zip trajHw.xyz).map (fun fp =>
    (fp.1.zip ((pairsOf fp.2).map (fun p => midv p.1 p.2))).map
      (fun om => (normalize3 (vsub om.1 om.2)).nth dim))

/-- compute_s(traj, surface_normal_dim, pore_center, max_distance, bin_width,
bond_array, symmetrize).  The whole-molecule reconstruction
traj.make_molecules_whole(inplace=True, sorted_bonds=bond_array) is the
external mdtraj operation `mmw`, applied first; then water O and H are
selected, the unit bisector vectors formed, oxygen distances binned, and
s = (3.0 * np.mean(cos_angles[mask] ** 2) - 1.0) / 2.0 appended per bin;
np.mean of an empty selection is NaN, which Option.map propagates.  This is
the successful path; the exception paths (the hydrogen reshape's ValueError
and np.arange's ZeroDivisionError) are carried by computeSRun below. -/
noncomputable def computeS (mmw : Option (List (ℕ × ℕ)) → Traj ℝ → Traj ℝ)
    (bondArray : Option (List (ℕ × ℕ))) (traj : Traj ℝ) (dim : Fin 3)
    (poreCenter maxDistance binWidth : ℝ) (symmetrize : Bool) :
    List ℝ × List (Option ℝ) :=
  let t1 := mmw bondArray traj
  let trajOw := atomSlice t1 (selectWaterName t1 nameO)
  let trajHw := atomSlice t1 (selectWaterName t1 nameH)
  let cosA := cosAngles trajOw trajHw dim
  let distances := distancesOf trajOw dim poreCenter symmetrize
  let samples := distances.flatten.zip cosA.flatten
  (arange (-maxDistance) maxDistance binWidth).foldl
    (fun acc c =>
      let sel := (samples.filter (fun p => inBin binWidth c p.1)).map (fun p => p.2)
      let s : Option ℝ := (npMean (sel.map (fun a => a ^ 2))).map
        (fun m => (3 * m - 1) / 2)
      (acc.1 ++ [c], acc.2 ++ [s]))
    ([], [])

/-- compute_angle(...): as compute_s, but each molecule's cos(angle) is first
multiplied by np.sign(-oxygen_coordinate + pore_center), the per-bin statistic
is np.mean of the signed values, and the full signed array is also returned. -/
noncomputable def computeAngle (mmw : Option (List (ℕ × ℕ)) → Traj ℝ → Traj ℝ)
    (bondArray : Option (List (ℕ × ℕ))) (traj : Traj ℝ) (dim : Fin 3)
    (poreCenter maxDistance binWidth : ℝ) (symmetrize : Bool) :
    List ℝ × List (Option ℝ) × List (List ℝ) :=
  let t1 := mmw bondArray traj
  let trajOw := atomSlice t1 (selectWaterName t1 nameO)
  let trajHw := atomSlice t1 (selectWaterName t1 nameH)
  let cosA0 := cosAngles trajOw trajHw dim
  let sideOfPore := trajOw.xyz.map (fun fr =>
    fr.map (fun v => npSign (-(v.nth dim) + poreCenter)))
  let cosA := (cosA0.zip sideOfPore).map (fun p =>
    (p.1.zip p.2).map (fun q => q.1 * q.2))
  let distances := distancesOf trajOw dim poreCenter symmetrize
  let samples := distances.flatten.zip cosA.flatten
  let res := (arange (-maxDistance) maxDistance binWidth).foldl
    (fun acc c =>
      let sel := (samples.filter (fun p => inBin binWidth c p.1)).map (fun p => p.2)
      (acc.1 ++ [c], acc.2 ++ [npMean sel]))
    ([], [])
  (res.1, res.2, cosA)

def errValueReshape : String :=
  "ValueError: cannot reshape array of size 0 into shape (0,newaxis,2,3)"

/-- compute_s at top level.  traj_hw.xyz.reshape(traj_hw.n_frames, -1, 2, 3)
infers the -1 dimension as total_H / (2 * n_frames): numpy raises ValueError
when n_frames = 0 (nothing can be inferred for a size-0 array whose known
dimensions multiply to 0) or when the division is not exact; afterwards
np.arange raises ZeroDivisionError when bin_width = 0.  Otherwise the result
is computeS. -/
noncomputable def computeSRun (mmw : Option (List (ℕ × ℕ)) → Traj ℝ → Traj ℝ)
    (bondArray : Option (List (ℕ × ℕ))) (traj : Traj ℝ) (dim : Fin 3)
    (poreCenter maxDistance binWidth : ℝ) (symmetrize : Bool) :
    Except String (List ℝ × List (Option ℝ)) :=
  let t1 := mmw bondArray traj
  let trajHw := atomSlice t1 (selectWaterName t1 nameH)
  let nF := trajHw.xyz.length
  let totalH := (trajHw.xyz.map List.length).sum
  if nF = 0 ∨ totalH % (2 * nF) ≠ 0 then Except.error errValueReshape
  else if binWidth = 0 then Except.error errZeroDivision
  else Except.ok (computeS mmw bondArray traj dim poreCenter maxDistance
    binWidth symmetrize)

/-- compute_angle at top level: the same hydrogen reshape and np.arange
exception paths as compute_s precede the successful computeAngle result. -/
noncomputable def computeAngleRun (mmw : Option (List (ℕ × ℕ)) → Traj ℝ → Traj ℝ)
    (bondArray : Option (List (ℕ × ℕ))) (traj : Traj ℝ) (dim : Fin 3)
    (poreCenter maxDistance binWidth : ℝ) (symmetrize : Bool) :
    Except String (List ℝ × List (Option ℝ) × List (List ℝ)) :=
  let t1 := mmw bondArray traj
  let trajHw := atomSlice t1 (selectWaterName t1 nameH)
  let nF := trajHw.xyz.length
  let totalH := (trajHw.xyz.map List.length).sum
  if nF = 0 ∨ totalH % (2 * nF) ≠ 0 then Except.error errValueReshape
  else if binWidth = 0 then Except.error errZeroDivision
  else Except.ok (computeAngle mmw bondArray traj dim poreCenter maxDistance
    binWidth symmetrize)

/-- compute_s in map form. -/
theorem computeS_eq (mmw : Option (List (ℕ × ℕ)) → Traj ℝ → Traj ℝ)
    (bonds : Option (List (ℕ × ℕ))) (t : Traj ℝ) (dim : Fin 3)
    (pc md bw : ℝ) (sym : Bool) :
    computeS mmw bonds t dim pc md bw sym
      = (arange (-md) md bw,
         (arange (-md) md bw).map (fun c =>
           (npMean (((((distancesOf (atomSlice (mmw bonds t)
                 (selectWaterName (mmw bonds t) nameO)) dim pc sym).flatten.zip
               (cosAngles (atomSlice (mmw bonds t) (selectWaterName (mmw bonds t) nameO))
                 (atomSlice (mmw bonds t) (selectWaterName (mmw bonds t) nameH))
                 dim).flatten).filter
                 (fun p => inBin bw c p.1)).map (fun p => p.2)).map
               (fun a => a ^ 2))).map (fun m => (3 * m - 1) / 2))) := by
  unfold computeS
  rw [foldl_append_pair]
  simp

/-- The signed per-frame per-molecule cos(angle) array of compute_angle:
cos_angles multiplied elementwise by np.sign(-coordinate + pore_center). -/
noncomputable def signedCosOf (t1 : Traj ℝ) (dim : Fin 3) (pc : ℝ) :
    List (List ℝ) :=
  ((cosAngles (atomSlice t1 (selectWaterName t1 nameO))
      (atomSlice t1 (selectWaterName t1 nameH)) dim).zip
    ((atomSlice t1 (selectWaterName t1 nameO)).xyz.map
      (fun fr => fr.map (fun v => npSign (-(v.nth dim) + pc))))).map
    (fun p => (p.1.zip p.2).map (fun q => q.1 * q.2))

/-- compute_angle in map form. -/
theorem computeAngle_eq (mmw : Option (List (ℕ × ℕ)) → Traj ℝ → Traj ℝ)
    (bonds : Option (List (ℕ × ℕ))) (t : Traj ℝ) (dim : Fin 3)
    (pc md bw : ℝ) (sym : Bool) :
    computeAngle mmw bonds t dim pc md bw sym
      = (arange (-md) md bw,
         (arange (-md) md bw).map (fun c =>
           npMean ((((distancesOf (atomSlice (mmw bonds t)
                 (selectWaterName (mmw bonds t) nameO)) dim pc sym).flatten.zip
               (signedCosOf (mmw bonds t) dim pc).flatten).filter
               (fun p => inBin bw c p.1)).map (fun p => p.2))),
         signedCosOf (mmw bonds t) dim pc) := by
  simp only [computeAngle, signedCosOf]
  rw [foldl_append_pair]
  simp

/-- The half-width mask is the strict |d - c| < bin_width/2 window, as a
filter-function identity. -/
theorem filter_inBin_eq (bw c : ℝ) (samples : List (ℝ × ℝ)) :
    samples.filter (fun p => inBin bw c p.1)
      = samples.filter (fun p => decide (|p.1 - c| < bw / 2)) := by
  congr 1
  funext p
  rw [Bool.eq_iff_iff, inBin_iff, decide_eq_true_eq, abs_sub_lt_iff]
  constructor <;> rintro ⟨h1, h2⟩ <;> constructor <;> linarith

/-- The per-bin statistic of compute_s equals the spec's order-parameter
formula over the masked samples, NaN (none) when the mask is empty. -/
theorem binStat_eq (bw c : ℝ) (samples : List (ℝ × ℝ)) :
    (npMean (((samples.filter (fun p => inBin bw c p.1)).map (fun p => p.2)).map
        (fun a => a ^ 2))).map (fun m => (3 * m - 1) / 2)
      = if (samples.filter (fun p => decide (|p.1 - c| < bw / 2))).map
            (fun p => p.2) = [] then none
        else some ((3 * (((((samples.filter (fun p =>
              decide (|p.1 - c| < bw / 2))).map (fun p => p.2)).map
                (fun a => a ^ 2)).sum
            / (((samples.filter (fun p => decide (|p.1 - c| < bw / 2))).map
                (fun p => p.2)).length : ℝ))) - 1) / 2) := by
  rw [filter_inBin_eq]
  generalize (samples.filter (fun p => decide (|p.1 - c| < bw / 2))).map
    (fun p : ℝ × ℝ => p.2) = sel
  by_cases h : sel = []
  · simp [h, npMean]
  · rw [if_neg h]
    have hne : (sel.map (fun a => a ^ 2)).isEmpty = false := by
      simp [List.isEmpty_iff, h]
    simp [npMean, hne, List.length_map]

/-- C5: every compute_s bin value is (3 * mean(cos_angle[mask]²) - 1) / 2 over
the samples selected by the half-width mask |d - c| < bin_width/2, where
cos_angle is the surface-normal component of the unit H-H-midpoint-to-oxygen
bisector; a bin whose mask selects no samples yields NaN (none), and the
function is total (no exception). -/
theorem c5_s_formula (mmw : Option (List (ℕ × ℕ)) → Traj ℝ → Traj ℝ)
    (bonds : Option (List (ℕ × ℕ))) (t : Traj ℝ) (dim : Fin 3)
    (pc md bw : ℝ) (sym : Bool) :
    (computeS mmw bonds t dim pc md bw sym).1 = arange (-md) md bw ∧
    (computeS mmw bonds t dim pc md bw sym).2
      = (arange (-md) md bw).map (fun c =>
          let t1 := mmw bonds t
          let ow := atomSlice t1 (selectWaterName t1 nameO)
          let hw := atomSlice t1 (selectWaterName t1 nameH)
          let sel := (((distancesOf ow dim pc sym).flatten.zip
              (cosAngles ow hw dim).flatten).filter
                (fun p => decide (|p.1 - c| < bw / 2))).map (fun p => p.2)
          if sel = [] then none
          else some ((3 * ((sel.map (fun a => a ^ 2)).sum / (sel.length : ℝ)) - 1)
            / 2)) := by
  rw [computeS_eq]
  exact ⟨rfl, List.map_congr_left fun c _ => binStat_eq bw c _⟩

/-- Translate a coordinate by a along axis dim. -/
def shiftAlong {K : Type} [LinearOrderedField K] (dim : Fin 3) (a : K)
    (v : Vec3 K) : Vec3 K :=
  if dim.val = 0 then ⟨v.x + a, v.y, v.z⟩
  else if dim.val = 1 then ⟨v.x, v.y + a, v.z⟩
  else ⟨v.x, v.y, v.z + a⟩

/-- The translated coordinate along the translation axis. -/
theorem nth_shiftAlong {K : Type} [LinearOrderedField K] (dim : Fin 3) (a : K)
    (v : Vec3 K) : (shiftAlong dim a v).nth dim = v.nth dim + a := by
  fin_cases dim <;> simp [shiftAlong, Vec3.nth]

/-- Vector differences are translation invariant. -/
theorem vsub_shiftAlong {K : Type} [LinearOrderedField K] (dim : Fin 3) (a : K)
    (v w : Vec3 K) : vsub (shiftAlong dim a v) (shiftAlong dim a w) = vsub v w := by
  fin_cases dim <;> simp [shiftAlong, vsub]

/-- Midpoints commute with translation. -/
theorem midv_shiftAlong {K : Type} [LinearOrderedField K] (dim : Fin 3) (a : K)
    (v w : Vec3 K) :
    midv (shiftAlong dim a v) (shiftAlong dim a w) = shiftAlong dim a (midv v w) := by
  fin_cases dim <;> simp [shiftAlong, midv] <;> try ring

/-- np.sign is odd. -/
theorem npSign_neg {K : Type} [LinearOrderedField K] (a : K) :
    npSign (-a) = -npSign a := by
  unfold npSign
  rcases lt_trichotomy a 0 with h | rfl | h
  · rw [if_neg (by linarith : ¬(-a < 0)), if_neg (by intro h0; linarith [neg_eq_zero.mp h0]),
      if_pos h]
    ring
  · simp
  · rw [if_pos (by linarith : -a < 0), if_neg (by linarith : ¬(a < 0)),
      if_neg (by linarith : ¬(a = 0))]

/-- np.sign of a nonzero value is nonzero. -/
theorem npSign_ne_zero {K : Type} [LinearOrderedField K] {a : K} (h : a ≠ 0) :
    npSign a ≠ 0 := by
  unfold npSign
  rcases lt_trichotomy a 0 with h1 | h1 | h1
  · rw [if_pos h1]
    norm_num
  · exact absurd h1 h
  · rw [if_neg (by linarith : ¬(a < 0)), if_neg h]
    norm_num

/-- The normal-axis component of a normalized vector. -/
theorem normalize3_nth (u : Vec3 ℝ) (dim : Fin 3) :
    (normalize3 u).nth dim
      = u.nth dim / Real.sqrt (u.x ^ 2 + u.y ^ 2 + u.z ^ 2) := by
  fin_cases dim <;> simp [normalize3, Vec3.nth]

/-- A vector with a nonzero component has positive squared norm. -/
theorem normSq_pos_of_nth {u : Vec3 ℝ} (dim : Fin 3) (h : u.nth dim ≠ 0) :
    0 < u.x ^ 2 + u.y ^ 2 + u.z ^ 2 := by
  fin_cases dim <;> simp [Vec3.nth] at h <;>
    nlinarith [pow_two_pos_of_ne_zero h, sq_nonneg u.x, sq_nonneg u.y, sq_nonneg u.z]

def waterTopRow : List (String × Bool) := [(nameO, true), (nameH, true), (nameH, true)]

/-- A single-frame trajectory of water molecules given as (O, H, H) coordinate
triples, with the topology rows O, H, H per molecule. -/
def mkWaterTraj (mols : List (Vec3 ℝ × Vec3 ℝ × Vec3 ℝ)) : Traj ℝ :=
  { top := (mols.map (fun _ => waterTopRow)).flatten,
    xyz := [(mols.map (fun m => [m.1, m.2.1, m.2.2])).flatten] }

/-- C6: compute_angle multiplies each molecule's bisector cosine by
sign(pore_center - oxygen_coordinate); consequently two molecules at mirror
positions about the pore center with the same bisector orientation (hence
identical unsigned bisector angle) give per-bin mean signed cosine values of
opposite sign in the mirrored bins (centers c and -c). -/
theorem c6_sign_flip (dim : Fin 3) (pc md bw c : ℝ) (o h1 h2 : Vec3 ℝ) (j k : ℕ)
    (hvz : (vsub o (midv h1 h2)).nth dim ≠ 0)
    (hk : (arange (-md) md bw).get? k = some c)
    (hj : (arange (-md) md bw).get? j = some (-c))
    (hin : |o.nth dim - pc - c| < bw / 2)
    (hout : bw / 2 ≤ |o.nth dim - pc + c|) :
    ∃ v : ℝ, v ≠ 0 ∧
      (computeAngle (fun _ u => u) none
          (mkWaterTraj [(o, h1, h2),
            (shiftAlong dim (-(2 * (o.nth dim - pc))) o,
             shiftAlong dim (-(2 * (o.nth dim - pc))) h1,
             shiftAlong dim (-(2 * (o.nth dim - pc))) h2)])
          dim pc md bw false).2.1.get? k = some (some v) ∧
      (computeAngle (fun _ u => u) none
          (mkWaterTraj [(o, h1, h2),
            (shiftAlong dim (-(2 * (o.nth dim - pc))) o,
             shiftAlong dim (-(2 * (o.nth dim - pc))) h1,
             shiftAlong dim (-(2 * (o.nth dim - pc))) h2)])
          dim pc md bw false).2.1.get? j = some (some (-v)) := by
  set d : ℝ := o.nth dim - pc with hd
  set a : ℝ := -(2 * d) with ha
  set T : Traj ℝ := mkWaterTraj [(o, h1, h2),
    (shiftAlong dim a o, shiftAlong dim a h1, shiftAlong dim a h2)] with hT
  set u : Vec3 ℝ := vsub o (midv h1 h2) with hu
  set cv : ℝ := (normalize3 u).nth dim with hcv
  have hd0 : d ≠ 0 := by
    intro h0
    rw [h0] at hin hout
    rw [zero_sub, abs_neg] at hin
    rw [zero_add] at hout
    linarith
  have hcv0 : cv ≠ 0 := by
    rw [hcv, normalize3_nth]
    exact div_ne_zero hvz (ne_of_gt (Real.sqrt_pos.mpr (normSq_pos_of_nth dim hvz)))
  have howx : (atomSlice T (selectWaterName T nameO)).xyz
      = [[o, shiftAlong dim a o]] := by
    rw [hT]
    rfl
  have hhwx : (atomSlice T (selectWaterName T nameH)).xyz
      = [[h1, h2, shiftAlong dim a h1, shiftAlong dim a h2]] := by
    rw [hT]
    rfl
  have e1 : o.nth dim - pc = d := hd.symm
  have e2 : (shiftAlong dim a o).nth dim - pc = -d := by
    rw [nth_shiftAlong, ha, hd]
    ring
  have e3 : -(o.nth dim) + pc = -d := by
    rw [hd]
    ring
  have e4 : -((shiftAlong dim a o).nth dim) + pc = d := by
    rw [nth_shiftAlong, ha, hd]
    ring
  have hdist : (distancesOf (atomSlice T (selectWaterName T nameO)) dim pc
      false).flatten = [d, -d] := by
    simp only [distancesOf]
    rw [howx]
    simp [e1, e2]
  have hcosA : cosAngles (atomSlice T (selectWaterName T nameO))
      (atomSlice T (selectWaterName T nameH)) dim = [[cv, cv]] := by
    simp only [cosAngles]
    rw [howx, hhwx]
    simp only [List.zip_cons_cons, List.zip_nil_right, List.map_cons, List.map_nil,
      pairsOf]
    rw [midv_shiftAlong, vsub_shiftAlong]
  have hside : (atomSlice T (selectWaterName T nameO)).xyz.map
      (fun fr => fr.map (fun v => npSign (-(v.nth dim) + pc)))
      = [[npSign (-d), npSign d]] := by
    rw [howx]
    simp only [List.map_cons, List.map_nil]
    rw [e3, e4]
  have hsigned : (signedCosOf T dim pc).flatten
      = [cv * npSign (-d), cv * npSign d] := by
    simp only [signedCosOf]
    rw [hcosA, hside]
    simp
  have hvals : (computeAngle (fun _ u => u) none T dim pc md bw false).2.1
      = (arange (-md) md bw).map (fun c' =>
          npMean ((([(d, cv * npSign (-d)), (-d, cv * npSign d)] :
              List (ℝ × ℝ)).filter
            (fun p => inBin bw c' p.1)).map (fun p => p.2))) := by
    rw [computeAngle_eq]
    dsimp only
    simp only [hdist, hsigned, List.zip_cons_cons, List.zip_nil_right]
  have habs := abs_lt.mp hin
  have hb1 : inBin bw c d = true := inBin_eq_true ⟨by linarith [habs.1], by linarith [habs.2]⟩
  have hb2 : inBin bw c (-d) = false := inBin_eq_false (by
    rintro ⟨hA, hB⟩
    rcases le_abs.mp hout with h | h <;> linarith)
  have hb3 : inBin bw (-c) (-d) = true := inBin_eq_true
    ⟨by linarith [habs.2], by linarith [habs.1]⟩
  have hb4 : inBin bw (-c) d = false := inBin_eq_false (by
    rintro ⟨hA, hB⟩
    rcases le_abs.mp hout with h | h <;> linarith)
  refine ⟨cv * npSign (-d), ?_, ?_, ?_⟩
  · exact mul_ne_zero hcv0 (npSign_ne_zero (neg_ne_zero.mpr hd0))
  · rw [hvals, List.get?_map, hk]
    simp only [Option.map_some']
    simp only [List.filter_cons, List.filter_nil, hb1, hb2]
    simp [npMean]
  · rw [hvals, List.get?_map, hj]
    simp only [Option.map_some']
    simp only [List.filter_cons, List.filter_nil, hb3, hb4]
    simp [npMean]
    rw [npSign_neg]
    ring

/-- C6 witness: a molecule with unit bisector +z at z = 1/2 and its mirror
image about pore_center = 0, binned with max_distance = 1, bin_width = 1/2;
the mirrored bins are those centered at 1/2 (index 3) and -1/2 (index 1). -/
theorem c6_witness :
    ((vsub (⟨0, 0, 1/2⟩ : Vec3 ℝ) (midv ⟨1, 0, -1/2⟩ ⟨-1, 0, -1/2⟩)).nth 2 ≠ 0 ∧
      (arange (-1 : ℝ) 1 (1/2)).get? 3 = some (1/2) ∧
      (arange (-1 : ℝ) 1 (1/2)).get? 1 = some (-(1/2)) ∧
      |(⟨0, 0, 1/2⟩ : Vec3 ℝ).nth 2 - 0 - 1/2| < (1/2) / 2 ∧
      (1/2 : ℝ) / 2 ≤ |(⟨0, 0, 1/2⟩ : Vec3 ℝ).nth 2 - 0 + 1/2|) ∧
    (∃ v : ℝ, v ≠ 0 ∧
      (computeAngle (fun _ u => u) none
          (mkWaterTraj [(⟨0, 0, 1/2⟩, ⟨1, 0, -1/2⟩, ⟨-1, 0, -1/2⟩),
            (shiftAlong 2 (-(2 * ((⟨0, 0, 1/2⟩ : Vec3 ℝ).nth 2 - 0))) ⟨0, 0, 1/2⟩,
             shiftAlong 2 (-(2 * ((⟨0, 0, 1/2⟩ : Vec3 ℝ).nth 2 - 0))) ⟨1, 0, -1/2⟩,
             shiftAlong 2 (-(2 * ((⟨0, 0, 1/2⟩ : Vec3 ℝ).nth 2 - 0))) ⟨-1, 0, -1/2⟩)])
          2 0 1 (1/2) false).2.1.get? 3 = some (some v) ∧
      (computeAngle (fun _ u => u) none
          (mkWaterTraj [(⟨0, 0, 1/2⟩, ⟨1, 0, -1/2⟩, ⟨-1, 0, -1/2⟩),
            (shiftAlong 2 (-(2 * ((⟨0, 0, 1/2⟩ : Vec3 ℝ).nth 2 - 0))) ⟨0, 0, 1/2⟩,
             shiftAlong 2 (-(2 * ((⟨0, 0, 1/2⟩ : Vec3 ℝ).nth 2 - 0))) ⟨1, 0, -1/2⟩,
             shiftAlong 2 (-(2 * ((⟨0, 0, 1/2⟩ : Vec3 ℝ).nth 2 - 0))) ⟨-1, 0, -1/2⟩)])
          2 0 1 (1/2) false).2.1.get? 1 = some (some (-v))) := by
  have hvz : (vsub (⟨0, 0, 1/2⟩ : Vec3 ℝ) (midv ⟨1, 0, -1/2⟩ ⟨-1, 0, -1/2⟩)).nth 2
      ≠ 0 := by
    norm_num [vsub, midv, Vec3.nth_z]
  have hk : (arange (-1 : ℝ) 1 (1/2)).get? 3 = some (1/2) := by
    rw [arange_get? 1 (1/2) (by norm_num) 3, if_pos (by push_cast; norm_num)]
    push_cast
    norm_num
  have hj : (arange (-1 : ℝ) 1 (1/2)).get? 1 = some (-(1/2)) := by
    rw [arange_get? 1 (1/2) (by norm_num) 1, if_pos (by push_cast; norm_num)]
    push_cast
    norm_num
  have hin : |(⟨0, 0, 1/2⟩ : Vec3 ℝ).nth 2 - 0 - 1/2| < (1/2) / 2 := by
    norm_num [Vec3.nth_z]
  have hout : (1/2 : ℝ) / 2 ≤ |(⟨0, 0, 1/2⟩ : Vec3 ℝ).nth 2 - 0 + 1/2| := by
    norm_num [Vec3.nth_z]
  exact ⟨⟨hvz, hk, hj, hin, hout⟩,
    c6_sign_flip 2 0 1 (1/2) (1/2) ⟨0, 0, 1/2⟩ ⟨1, 0, -1/2⟩ ⟨-1, 0, -1/2⟩ 1 3
      hvz hk hj hin hout⟩

/-- compute_density with explicit trajectory state passing: the source only
reads traj.xyz, so the caller's trajectory is returned unchanged. -/
def computeDensityState {K : Type} [LinearOrderedField K] [FloorRing K]
    (traj : Traj K) (area : K) (dim : Fin 3) (pc md bw : K) (sym : Bool) :
    Traj K × (List K × List (Option K)) :=
  (traj, computeDensity traj area dim pc md bw sym)

/-- compute_mol_per_area with explicit trajectory state passing: atom_slice
returns fresh sub-trajectories, the input is only read. -/
def computeMolPerAreaState {K : Type} [LinearOrderedField K] (traj : Traj K)
    (area : K) (dim : Fin 3) (br : K × K) (nb : ℕ) (sh : Bool)
    (fr : Option (List ℕ)) :
    Traj K × Except String (List K × List K) :=
  (traj, computeMolPerArea traj area dim br nb sh fr)

/-- compute_s with explicit trajectory state passing: the first statement is
traj.make_molecules_whole(inplace=True, ...), so the caller's trajectory is
left in the reconstructed state mmw bondArray traj. -/
noncomputable def computeSState (mmw : Option (List (ℕ × ℕ)) → Traj ℝ → Traj ℝ)
    (bondArray : Option (List (ℕ × ℕ))) (traj : Traj ℝ) (dim : Fin 3)
    (pc md bw : ℝ) (sym : Bool) :
    Traj ℝ × (List ℝ × List (Option ℝ)) :=
  (mmw bondArray traj, computeS mmw bondArray traj dim pc md bw sym)

/-- compute_angle with explicit trajectory state passing, as for compute_s. -/
noncomputable def computeAngleState (mmw : Option (List (ℕ × ℕ)) → Traj ℝ → Traj ℝ)
    (bondArray : Option (List (ℕ × ℕ))) (traj : Traj ℝ) (dim : Fin 3)
    (pc md bw : ℝ) (sym : Bool) :
    Traj ℝ × (List ℝ × List (Option ℝ) × List (List ℝ)) :=
  (mmw bondArray traj, computeAngle mmw bondArray traj dim pc md bw sym)

/-- C9: compute_density and compute_mol_per_area leave the caller's trajectory
unchanged; compute_s and compute_angle first mutate it in place into the
whole-molecule reconstruction mmw bondArray traj, and all their further
processing depends only on that reconstructed trajectory. -/
theorem c9_trajectory_effects :
    (∀ (t : Traj ℚ) (A pc md bw : ℚ) (dim : Fin 3) (sym : Bool),
        (computeDensityState t A dim pc md bw sym).1 = t) ∧
    (∀ (t : Traj ℚ) (A : ℚ) (dim : Fin 3) (br : ℚ × ℚ) (nb : ℕ) (sh : Bool)
        (fr : Option (List ℕ)),
        (computeMolPerAreaState t A dim br nb sh fr).1 = t) ∧
    (∀ (mmw : Option (List (ℕ × ℕ)) → Traj ℝ → Traj ℝ)
        (b : Option (List (ℕ × ℕ))) (t : Traj ℝ) (dim : Fin 3)
        (pc md bw : ℝ) (sym : Bool),
        (computeSState mmw b t dim pc md bw sym).1 = mmw b t ∧
        (computeAngleState mmw b t dim pc md bw sym).1 = mmw b t ∧
        computeS mmw b t dim pc md bw sym
          = computeS (fun _ u => u) none (mmw b t) dim pc md bw sym ∧
        computeAngle mmw b t dim pc md bw sym
          = computeAngle (fun _ u => u) none (mmw b t) dim pc md bw sym) :=
  ⟨fun _ _ _ _ _ _ _ => rfl, fun _ _ _ _ _ _ _ => rfl,
   fun _ _ _ _ _ _ _ _ => ⟨rfl, rfl, rfl, rfl⟩⟩

/-- C8 (amended): the routines perform no explicit input validation, but not
every malformed input propagates as NaN/infinity: zero area makes every
compute_density value non-finite, an empty trajectory makes every
compute_density value NaN, and a negative bin_width yields empty output, all
without exception; however bin_width = 0 raises ZeroDivisionError inside
np.arange, an empty trajectory raises ValueError in compute_s and
compute_angle (the hydrogen reshape with an inferred dimension fails on a
size-0 array), and an empty trajectory raises UnboundLocalError in
compute_mol_per_area when frame_range is absent or empty (the loop never
assigns areas/bins) and IndexError when a nonempty frame_range indexes it. -/
theorem c8_amended :
    (∀ (t : Traj ℚ) (pc md bw : ℚ) (dim : Fin 3) (sym : Bool),
        ∀ v ∈ (computeDensity t 0 dim pc md bw sym).2, v = none) ∧
    (∀ (top2 : List (String × Bool)) (A pc md bw : ℚ) (dim : Fin 3) (sym : Bool),
        ∀ v ∈ (computeDensity ⟨top2, []⟩ A dim pc md bw sym).2, v = none) ∧
    (∀ (t : Traj ℚ) (A pc md : ℚ) (dim : Fin 3) (sym : Bool),
        computeDensityRun t A dim pc md 0 sym = Except.error errZeroDivision) ∧
    (∀ (t : Traj ℚ) (A pc md bw : ℚ) (dim : Fin 3) (sym : Bool),
        bw < 0 → 0 < md →
        computeDensityRun t A dim pc md bw sym = Except.ok ([], [])) ∧
    (∀ (top2 : List (String × Bool)) (A lo hi : ℚ) (dim : Fin 3) (nb : ℕ)
        (sh : Bool),
        computeMolPerArea (⟨top2, []⟩ : Traj ℚ) A dim (lo, hi) nb sh none
            = Except.error errUnboundLocal ∧
        computeMolPerArea (⟨top2, []⟩ : Traj ℚ) A dim (lo, hi) nb sh (some [])
            = Except.error errUnboundLocal) ∧
    (∀ (top2 : List (String × Bool)) (A lo hi : ℚ) (dim : Fin 3) (nb : ℕ)
        (sh : Bool) (i : ℕ) (idxs : List ℕ),
        computeMolPerArea (⟨top2, []⟩ : Traj ℚ) A dim (lo, hi) nb sh
            (some (i :: idxs))
          = Except.error errIndexError) ∧
    (∀ (bonds : Option (List (ℕ × ℕ))) (rtop : List (String × Bool)) (dim : Fin 3)
        (pc md bw : ℝ) (sym : Bool),
        computeSRun (fun _ u => u) bonds ⟨rtop, []⟩ dim pc md bw sym
          = Except.error errValueReshape) ∧
    (∀ (bonds : Option (List (ℕ × ℕ))) (rtop : List (String × Bool)) (dim : Fin 3)
        (pc md bw : ℝ) (sym : Bool),
        computeAngleRun (fun _ u => u) bonds ⟨rtop, []⟩ dim pc md bw sym
          = Except.error errValueReshape) := by
  refine ⟨?_, ?_, ?_, ?_, ?_, ?_, ?_, ?_⟩
  · intro t pc md bw dim sym v hv
    cases sym
    · rw [computeDensity_false_snd] at hv
      rcases List.mem_map.mp hv with ⟨c, -, rfl⟩
      simp [npDiv]
    · rw [computeDensity_true_snd] at hv
      rcases List.mem_map.mp hv with ⟨c, -, rfl⟩
      by_cases h : npIsClose c 0 (1 / 100000) (1 / 100000000) = true <;>
        simp [h, npDiv]
  · intro top2 A pc md bw dim sym v hv
    cases sym
    · rw [computeDensity_false_snd] at hv
      rcases List.mem_map.mp hv with ⟨c, -, rfl⟩
      simp [npDiv, Traj.nFrames]
    · rw [computeDensity_true_snd] at hv
      rcases List.mem_map.mp hv with ⟨c, -, rfl⟩
      by_cases h : npIsClose c 0 (1 / 100000) (1 / 100000000) = true <;>
        simp [h, npDiv, Traj.nFrames]
  · intro t A pc md dim sym
    rfl
  · intro t A pc md bw dim sym hbw hmd
    have harange : arange (-md) md bw = [] := by
      have hq : (md - -md) / bw < 0 := div_neg_of_pos_of_neg (by linarith) hbw
      unfold arange
      rw [Int.toNat_of_nonpos (Int.ceil_le.mpr (by push_cast; linarith))]
      rfl
    unfold computeDensityRun
    rw [if_neg (ne_of_lt hbw)]
    simp [computeDensity, harange]
  · intro top2 A lo hi dim nb sh
    exact ⟨rfl, rfl⟩
  · intro top2 A lo hi dim nb sh i idxs
    rfl
  · intro bonds rtop dim pc md bw sym
    rfl
  · intro bonds rtop dim pc md bw sym
    rfl

/-- C8 witness: a negative bin_width produces empty (exception-free) output
from compute_density via the amended theorem. -/
theorem c8_witness :
    ((-1 : ℚ) < 0 ∧ (0 : ℚ) < 1) ∧
    computeDensityRun trajEmpty 1 2 0 1 (-1) false = Except.ok ([], []) := by
  refine ⟨⟨by norm_num, by norm_num⟩, ?_⟩
  exact c8_amended.2.2.2.1 trajEmpty 1 0 1 (-1) 2 false (by norm_num) (by norm_num)

end MosdefSlitpore
